import Mathlib

/-!
Verification of the command extraction, syntax validation, execution
coordination and interrupt handling logic of claude-cli
(src/claude-cli.py), as a shallow embedding.

Python strings are modelled as lists of characters (`PyStr`), so that
Python's `strip` / `split` / `join` / `lower` string operations become
executable list functions amenable to induction.  External processes that
the code consults or spawns (the `bash -n` syntax check, Python's
`compile`, `subprocess.Popen`, `os.killpg`, `os.unlink`, ...) are modelled
by oracle parameters and by an explicit action trace, so that every
control path of the source is represented by a value of the embedding.
-/

namespace ClaudeCli

/-- Python strings, modelled as lists of characters. -/
abbrev PyStr := List Char

/-- Embed a Lean string literal as a Python string value. -/
def str (s : String) : PyStr := s.data

/-- The ASCII whitespace characters removed by Python's `str.strip`. -/
def pyWs (c : Char) : Bool :=
  c == ' ' || c == '\t' || c == '\n' || c == '\r' || c == '\x0b' || c == '\x0c'

/-- Python `str.lstrip()`. -/
def pyLStrip (s : PyStr) : PyStr := s.dropWhile pyWs

/-- Python `str.rstrip()`. -/
def pyRStrip (s : PyStr) : PyStr := (s.reverse.dropWhile pyWs).reverse

/-- Python `str.strip()`. -/
def pyStrip (s : PyStr) : PyStr := pyRStrip (pyLStrip s)

/-- Python `str.split(c)` for a one-character separator. -/
def pySplit (c : Char) (s : PyStr) : List PyStr := s.splitOn c

/-- Python `str.lower()` (ASCII). -/
def pyLower (s : PyStr) : PyStr := s.map Char.toLower

/-- The triple-backtick fence delimiter of `History.extract_commands`. -/
def fence : PyStr := str "```"

/-- One extracted command block: `(command, language, error_message)` as
returned by `History.extract_commands`. -/
structure Block where
  command : PyStr
  language : PyStr
  error : PyStr
deriving DecidableEq, Repr

/-- Outcome of running `bash -n` (the external shell syntax check) in
`History.test_command`: the process ran and produced a return code and a
stderr text, or `subprocess.run` itself raised. -/
inductive BashCheckOutcome where
  | ran (returncode : Int) (stderr : PyStr)
  | raised (msg : PyStr)

/-- Outcome of Python's `compile(command, "<string>", "exec")`: success, or a
raised exception carrying a message. -/
inductive CompileOutcome where
  | ok
  | err (msg : PyStr)

/-- The two external non-executing syntax checkers `History.test_command`
may consult, modelled as oracles. -/
structure Oracles where
  bashN : PyStr → BashCheckOutcome
  pyCompile : PyStr → CompileOutcome

/-- A fixed concrete oracle assignment (everything succeeds), used for
evaluating the embedding on concrete inputs. -/
def noOracles : Oracles :=
  { bashN := fun _ => BashCheckOutcome.ran 0 []
    pyCompile := fun _ => CompileOutcome.ok }

/-- The metacharacter set of the fast path of `History.test_command`. -/
def metachars : PyStr := str "&|;<>()"

/-- `History.test_command`: test whether a command has valid syntax without
executing it, returning `(is_valid, error_message)`. -/
def test_command (o : Oracles) (command : PyStr) (language : PyStr) : Bool × PyStr :=
  if language = str "bash" then
    if !command.contains '\n' && metachars.all (fun c => !command.contains c) then
      (true, [])
    else
      match o.bashN command with
      | BashCheckOutcome.ran returncode stderr =>
          (returncode == 0, pyStrip stderr)
      | BashCheckOutcome.raised msg =>
          (false, str "Error checking bash syntax: " ++ msg)
  else if language = str "python" then
    match o.pyCompile command with
    | CompileOutcome.ok => (true, [])
    | CompileOutcome.err msg => (false, msg)
  else
    (false, str "Unsupported language: " ++ language)

/-- The recognized fence language tags of `History.extract_commands`. -/
def valid_languages : List PyStr := [str "bash", str "python"]

/-- The block emitted when a fence closes: `'\n'.join(current_block).strip()`,
kept only if non-empty, with the error message from `test_command` when
validation is requested (the source appends the block whether or not it is
valid, carrying the error message). -/
def closeBlock (o : Oracles) (validate : Bool) (current_block : List PyStr)
    (current_language : Option PyStr) (commands : List Block) : List Block :=
  match current_block, current_language with
  | _ :: _, some lang =>
    let command := pyStrip (List.intercalate (str "\n") current_block)
    if command = [] then commands
    else if validate then
      commands ++ [⟨command, lang, (test_command o command lang).2⟩]
    else
      commands ++ [⟨command, lang, []⟩]
  | _, _ => commands

/-- The line scanner of `History.extract_commands`, one step per input line.
State: `in_block`, `current_block` (accumulated body lines),
`current_language`, and the accumulated `commands`. -/
def extractLoop (o : Oracles) (validate : Bool) :
    List PyStr → Bool → List PyStr → Option PyStr → List Block → List Block
  | [], _, _, _, commands => commands
  | line :: rest, in_block, current_block, current_language, commands =>
    let stripped := pyStrip line
    if fence.isPrefixOf stripped && !in_block then
      let language := pyLower (pyStrip (stripped.drop 3))
      if valid_languages.contains language then
        extractLoop o validate rest true [] (some language) commands
      else
        extractLoop o validate rest in_block current_block current_language commands
    else if stripped == fence && in_block then
      extractLoop o validate rest false [] none
        (closeBlock o validate current_block current_language commands)
    else if in_block then
      extractLoop o validate rest in_block (current_block ++ [line])
        current_language commands
    else
      extractLoop o validate rest in_block current_block current_language commands

/-- `History.extract_commands`: extract (and optionally validate) the fenced
command blocks of a response text. -/
def extract_commands (o : Oracles) (text : PyStr) (validate : Bool) : List Block :=
  extractLoop o validate (pySplit '\n' text) false [] none []

/-- `closeBlock` instrumented with ghost line spans: the accumulated body
lines are carried together with their zero-based index in the input line
list, and each emitted block keeps the indexed lines it was built from. -/
def closeBlockSpans (o : Oracles) (validate : Bool)
    (current_block : List (Nat × PyStr)) (current_language : Option PyStr)
    (commands : List (Block × List (Nat × PyStr))) :
    List (Block × List (Nat × PyStr)) :=
  match current_block, current_language with
  | _ :: _, some lang =>
    let command := pyStrip (List.intercalate (str "\n")
      (current_block.map Prod.snd))
    if command = [] then commands
    else if validate then
      commands ++ [(⟨command, lang, (test_command o command lang).2⟩, current_block)]
    else
      commands ++ [(⟨command, lang, []⟩, current_block)]
  | _, _ => commands

/-- `extractLoop` instrumented with ghost line spans; `i` is the index of
the next input line. -/
def extractLoopSpans (o : Oracles) (validate : Bool) :
    Nat → List PyStr → Bool → List (Nat × PyStr) → Option PyStr →
      List (Block × List (Nat × PyStr)) → List (Block × List (Nat × PyStr))
  | _, [], _, _, _, commands => commands
  | i, line :: rest, in_block, current_block, current_language, commands =>
    let stripped := pyStrip line
    if fence.isPrefixOf stripped && !in_block then
      let language := pyLower (pyStrip (stripped.drop 3))
      if valid_languages.contains language then
        extractLoopSpans o validate (i + 1) rest true [] (some language) commands
      else
        extractLoopSpans o validate (i + 1) rest in_block current_block
          current_language commands
    else if stripped == fence && in_block then
      extractLoopSpans o validate (i + 1) rest false [] none
        (closeBlockSpans o validate current_block current_language commands)
    else if in_block then
      extractLoopSpans o validate (i + 1) rest in_block
        (current_block ++ [(i, line)]) current_language commands
    else
      extractLoopSpans o validate (i + 1) rest in_block current_block
        current_language commands

/-- `extract_commands` with ghost line spans. -/
def extract_commands_spans (o : Oracles) (text : PyStr) (validate : Bool) :
    List (Block × List (Nat × PyStr)) :=
  extractLoopSpans o validate 0 (pySplit '\n' text) false [] none []

/-- All input line indices mentioned by the spans of an instrumented
extraction result, in emission order. -/
def flatSpans (l : List (Block × List (Nat × PyStr))) : List Nat :=
  l.flatMap (fun e => e.2.map Prod.fst)

/-- Append a character to the last element of a list of strings (helper for
reasoning about `split` on a reversed string). -/
def appendLast (a : Char) : List PyStr → List PyStr
  | [] => [[a]]
  | [x] => [x ++ [a]]
  | x :: y :: r => x :: appendLast a (y :: r)

/-! ## The execution coordinator and the interrupt handler (`Executor`) -/

/-- `signal.SIGTERM`. -/
def SIGTERM : Int := 15

/-- A spawned OS process handle.  `Executor.execute_command` spawns with
`preexec_fn=os.setsid`, so the child leads its own process group and its
group id equals its pid. -/
structure Proc where
  pid : Nat
  pgid : Nat
deriving DecidableEq, Repr

/-- `os.getpgid` applied to a process handle's pid. -/
def getpgid (p : Proc) : Nat := p.pgid

/-- The mutable fields of `Executor`: the single live subprocess slot and
the transcript path of the in-flight execution. -/
structure ExecutorState where
  current_process : Option Proc
  recording_file : Option String
deriving DecidableEq, Repr

/-- Externally visible actions performed by the `Executor`, in order. -/
inductive Action where
  | print (msg : String)
  | createTemp (path : String)
  | chmod (path : String) (mode : Nat)
  | spawnGroup (argv : List String) (env : List (String × String)) (p : Proc)
  | waitProc (pid : Nat)
  | killpg (pgid : Nat) (sig : Int)
  | restoreDefaultSigint
  | unlink (path : String)
deriving DecidableEq, Repr

/-- Result of one run of the interrupt callback. -/
structure InterruptResult where
  state : ExecutorState
  trace : List Action
  raises : Bool
deriving DecidableEq, Repr

/-- `Executor.handle_interrupt`.  `lookupOk` models whether `os.getpgid`
finds the process (otherwise `ProcessLookupError` is raised, caught by the
handler, and no signal is delivered); either way the `finally` clause
clears the slot.  With no live process the handler restores the default
SIGINT disposition and re-raises `KeyboardInterrupt`. -/
def handle_interrupt (lookupOk : Bool) (s : ExecutorState) : InterruptResult :=
  match s.current_process with
  | some p =>
    { state := { s with current_process := none }
      trace := Action.print "\nTerminating command..." ::
        (if lookupOk then [Action.killpg (getpgid p) SIGTERM, Action.waitProc p.pid]
         else [])
      raises := false }
  | none =>
    { state := s
      trace := [Action.restoreDefaultSigint]
      raises := true }

/-- The argument of `Executor.execute_command`: either a bare string
(treated as bash) or a `(command, language)` pair. -/
inductive PyCommand where
  | ofStr (s : String)
  | ofTuple (cmd language : String)
deriving DecidableEq, Repr

/-- The command text of a `PyCommand` after the tuple normalization at the
top of `Executor.execute_command`. -/
def cmdText : PyCommand → String
  | PyCommand.ofStr s => s
  | PyCommand.ofTuple c _ => c

/-- The language of a `PyCommand` after tuple normalization. -/
def cmdLanguage : PyCommand → String
  | PyCommand.ofStr _ => "bash"
  | PyCommand.ofTuple _ l => l

/-- The name of the secret credential variable stripped from the child's
environment. -/
def apiKeyVar : String := "ANTHROPIC_API_KEY"

/-- `env = os.environ.copy(); env.pop('ANTHROPIC_API_KEY', None)`:
the ambient environment with the credential entry removed. -/
def eraseApiKey (env : List (String × String)) : List (String × String) :=
  env.filter (fun kv => kv.fst != apiKeyVar)

/-- The ambient context of one call to `Executor.execute_command`: the
ambient environment, the fresh temp-file names handed out by
`tempfile.NamedTemporaryFile`, the transcript contents, the child pid, and
the outcomes of the OS interactions on this run (`spawnOk`: `Popen` does
not raise; `interruptDuringWait`: a `KeyboardInterrupt` arrives while
waiting; `lookupOk`: the interrupt handler's `os.getpgid` finds the child;
`waitRC`: the child's exit status when the wait completes;
`unlinkTmpOk` / `unlinkRecOk`: the two `os.unlink` calls succeed). -/
structure ExecEnv where
  ambient : List (String × String)
  tmpName : String
  recName : String
  transcript : String
  pid : Nat
  spawnOk : Bool
  interruptDuringWait : Bool
  lookupOk : Bool
  waitRC : Int
  unlinkTmpOk : Bool
  unlinkRecOk : Bool
deriving Repr

/-- Everything observable about one call to `Executor.execute_command`:
its return value, whether an exception propagated, the action trace, the
ghost file-lifecycle flags, the spawned process and the environment it was
given, whether the post-wait failure notice was printed, and the final
`Executor` state. -/
structure ExecResult where
  output : Option String
  raised : Bool
  trace : List Action
  scratchCreated : Bool
  scratchExists : Bool
  transcriptCreated : Bool
  transcriptExists : Bool
  spawned : Bool
  spawnEnv : Option (List (String × String))
  proc : Option Proc
  failureNoticePrinted : Bool
  state : ExecutorState
deriving Repr

/-- Outcome of the `try` block of `Executor.execute_command` (before the
`finally` clause runs). -/
structure TryOutcome where
  output : Option String
  raised : Bool
  failureNoticePrinted : Bool
  trace : List Action
deriving Repr

/-- The inner `try` of `Executor.execute_command`: spawn, wait, the
post-wait failure notice (`returncode != 0 and returncode != -SIGTERM`),
the transcript read-back, and the `except KeyboardInterrupt` branch that
re-enters `handle_interrupt` with the live process. -/
def tryBody (capture_output : Bool) (E : ExecEnv) (script_cmd : List String)
    (envv : List (String × String)) (proc : Proc) : TryOutcome :=
  if E.interruptDuringWait then
    let hr := handle_interrupt E.lookupOk
      { current_process := some proc, recording_file := some E.recName }
    { output := none
      raised := false
      failureNoticePrinted := false
      trace := Action.spawnGroup script_cmd envv proc :: Action.waitProc proc.pid ::
        hr.trace }
  else
    { output := if capture_output then some E.transcript else none
      raised := false
      failureNoticePrinted := decide (E.waitRC ≠ 0 ∧ E.waitRC ≠ -SIGTERM)
      trace := [Action.spawnGroup script_cmd envv proc, Action.waitProc proc.pid] }

/-- `Executor.execute_command`.  Follows the source: tuple normalization,
the `if not cmd` no-op rejection, scratch-file creation, chmod, credential
stripping, the `script`-recording shim command line, `Popen` in a fresh
process group, the wait / interrupt / failure-notice logic, the transcript
read-back, and the `finally` clause that best-effort-unlinks the scratch
and transcript files and clears the executor state.  (In the source the
`len(cmd_tuple) != 2` guard can never fire for a typed pair and is elided;
an exception raised by `Popen` propagates after the `finally` clause, shown
by `raised := true`.) -/
def execute_command (command : PyCommand) (capture_output : Bool)
    (E : ExecEnv) : ExecResult :=
  let cmd := cmdText command
  let language := cmdLanguage command
  if cmd = "" then
    { output := none
      raised := false
      trace := [Action.print "No command provided"]
      scratchCreated := false
      scratchExists := false
      transcriptCreated := false
      transcriptExists := false
      spawned := false
      spawnEnv := none
      proc := none
      failureNoticePrinted := false
      state := { current_process := none, recording_file := none } }
  else
    let file_extension := if language = "python" then ".py" else ".sh"
    let tmp_path := E.tmpName ++ file_extension
    let envv := eraseApiKey E.ambient
    let exec_cmd := (if language = "python" then "python " else "bash ") ++ tmp_path
    let script_cmd := ["script", "-q", "-c", exec_cmd, E.recName]
    let preTrace := [Action.createTemp tmp_path, Action.chmod tmp_path 0o755,
      Action.print ("\nExecuting " ++ language ++ " command:\n" ++ cmd ++ "\n---"),
      Action.createTemp E.recName]
    let proc : Proc := { pid := E.pid, pgid := E.pid }
    let tryOut : TryOutcome :=
      if E.spawnOk then tryBody capture_output E script_cmd envv proc
      else { output := none, raised := true, failureNoticePrinted := false, trace := [] }
    let cleanupTrace :=
      Action.unlink tmp_path ::
        (if E.unlinkTmpOk then [Action.unlink E.recName] else []) ++
        [Action.print "---"]
    { output := tryOut.output
      raised := tryOut.raised
      trace := preTrace ++ tryOut.trace ++ cleanupTrace
      scratchCreated := true
      scratchExists := !E.unlinkTmpOk
      transcriptCreated := true
      transcriptExists := !(E.unlinkTmpOk && E.unlinkRecOk)
      spawned := E.spawnOk
      spawnEnv := if E.spawnOk then some envv else none
      proc := if E.spawnOk then some proc else none
      failureNoticePrinted := tryOut.failureNoticePrinted
      state := { current_process := none, recording_file := none } }

/-- A concrete ambient context for evaluating the embedding. -/
def sampleEnv : ExecEnv :=
  { ambient := [("PATH", "/usr/bin"), (apiKeyVar, "sk-secret"), ("HOME", "/home/u")]
    tmpName := "/tmp/tmpabc"
    recName := "/tmp/tmqrec.typescript"
    transcript := "hi\n"
    pid := 4242
    spawnOk := true
    interruptDuringWait := false
    lookupOk := true
    waitRC := 0
    unlinkTmpOk := true
    unlinkRecOk := true }

/-! ## Session history (`History`) -/

/-- One user/assistant interaction as stored in `History.session_history`
by `History.add_interaction`. -/
structure Interaction where
  user : String
  assistant : String
  commands : List Block

/-- One message of the API request body. -/
structure Msg where
  role : String
  content : String
deriving DecidableEq, Repr

/-- `History.get_messages_for_api`: the last 10 interactions
(`session_history[-10:]`), each extended onto the message list as a user
message followed by an assistant message. -/
def get_messages_for_api (session_history : List Interaction) : List Msg :=
  (session_history.drop (session_history.length - 10)).foldl
    (fun messages interaction =>
      messages ++ [{ role := "user", content := interaction.user },
        { role := "assistant", content := interaction.assistant }]) []

/-! ## Lemmas about the Python string operations -/

theorem pySplit_eq (c : Char) (s : PyStr) : pySplit c s = s.splitOnP (· == c) := by
  simp [pySplit, List.splitOn]

theorem pySplit_nil (c : Char) : pySplit c [] = [[]] := rfl

theorem pySplit_ne_nil (c : Char) (s : PyStr) : pySplit c s ≠ [] := by
  rw [pySplit_eq]; exact List.splitOnP_ne_nil _ s

theorem pySplit_cons (c a : Char) (t : PyStr) :
    pySplit c (a :: t) =
      if a = c then [] :: pySplit c t
      else (pySplit c t).modifyHead (List.cons a) := by
  by_cases h : a = c
  · simp [pySplit_eq, List.splitOnP_cons, h]
  · simp [pySplit_eq, List.splitOnP_cons, h]

theorem not_mem_of_mem_pySplit {c : Char} :
    ∀ (s : PyStr), ∀ y ∈ pySplit c s, c ∉ y := by
  intro s
  induction s with
  | nil =>
    intro y hy
    rw [pySplit_nil, List.mem_singleton] at hy
    subst hy; simp
  | cons a t ih =>
    intro y hy
    rw [pySplit_cons] at hy
    by_cases h : a = c
    · rw [if_pos h] at hy
      rcases List.mem_cons.mp hy with h1 | h1
      · subst h1; simp
      · exact ih y h1
    · rw [if_neg h] at hy
      rcases hsp : pySplit c t with _ | ⟨hd, tl⟩
      · exact absurd hsp (pySplit_ne_nil c t)
      · rw [hsp] at hy
        simp only [List.modifyHead] at hy
        rcases List.mem_cons.mp hy with h1 | h1
        · subst h1
          intro hc
          rcases List.mem_cons.mp hc with h2 | h2
          · exact h h2.symm
          · have hhd : hd ∈ pySplit c t := by
              rw [hsp]; exact List.mem_cons_self hd tl
            exact ih hd hhd h2
        · have hym : y ∈ pySplit c t := by
            rw [hsp]; exact List.mem_cons_of_mem hd h1
          exact ih y hym

theorem dropWhile_append_of_nil (p : Char → Bool) (l₁ l₂ : PyStr)
    (h : l₁.dropWhile p = []) :
    (l₁ ++ l₂).dropWhile p = l₂.dropWhile p := by
  induction l₁ with
  | nil => simp
  | cons a t ih =>
    rw [List.dropWhile_cons] at h
    rw [List.cons_append, List.dropWhile_cons]
    by_cases hp : p a = true
    · simp only [if_pos hp] at h ⊢; exact ih h
    · rw [if_neg hp] at h; simp at h

theorem dropWhile_append_of_ne_nil (p : Char → Bool) (l₁ l₂ : PyStr)
    (h : l₁.dropWhile p ≠ []) :
    (l₁ ++ l₂).dropWhile p = l₁.dropWhile p ++ l₂ := by
  induction l₁ with
  | nil => simp at h
  | cons a t ih =>
    rw [List.dropWhile_cons] at h
    rw [List.cons_append, List.dropWhile_cons, List.dropWhile_cons]
    by_cases hp : p a = true
    · simp only [if_pos hp] at h ⊢; exact ih h
    · simp only [if_neg hp] at h ⊢; rw [List.cons_append]

theorem pyLStrip_cons_ws {a : Char} (l : PyStr) (h : pyWs a = true) :
    pyLStrip (a :: l) = pyLStrip l := by
  simp [pyLStrip, List.dropWhile_cons, h]

theorem pyLStrip_cons_not_ws {a : Char} (l : PyStr) (h : pyWs a = false) :
    pyLStrip (a :: l) = a :: l := by
  simp [pyLStrip, List.dropWhile_cons, h]

theorem pyStrip_cons_ws {a : Char} (l : PyStr) (h : pyWs a = true) :
    pyStrip (a :: l) = pyStrip l := by
  simp [pyStrip, pyLStrip_cons_ws l h]

theorem pyRStrip_cons (a : Char) (t : PyStr) :
    pyRStrip (a :: t) =
      if pyRStrip t = [] then (if pyWs a then [] else [a])
      else a :: pyRStrip t := by
  by_cases h : pyRStrip t = []
  · have h0 : t.reverse.dropWhile pyWs = [] := by
      have := congrArg List.reverse h
      simpa [pyRStrip] using this
    rw [if_pos h]
    show ((a :: t).reverse.dropWhile pyWs).reverse = _
    rw [List.reverse_cons, dropWhile_append_of_nil _ _ _ h0]
    by_cases ha : pyWs a = true
    · simp [List.dropWhile_cons, ha]
    · simp [List.dropWhile_cons, ha]
  · have h0 : t.reverse.dropWhile pyWs ≠ [] := by
      intro hc
      exact h (by simp [pyRStrip, hc])
    rw [if_neg h]
    show ((a :: t).reverse.dropWhile pyWs).reverse = _
    rw [List.reverse_cons, dropWhile_append_of_ne_nil _ _ _ h0]
    simp [pyRStrip]

theorem pyLStrip_pyRStrip_comm (l : PyStr) :
    pyLStrip (pyRStrip l) = pyRStrip (pyLStrip l) := by
  induction l with
  | nil => rfl
  | cons a t ih =>
    rw [pyRStrip_cons]
    by_cases ha : pyWs a = true
    · rw [pyLStrip_cons_ws t ha]
      by_cases h : pyRStrip t = []
      · rw [if_pos h, if_pos ha]
        rw [← ih, h]
      · rw [if_neg h, pyLStrip_cons_ws _ ha, ih]
    · have ha' : pyWs a = false := by simpa using ha
      rw [pyLStrip_cons_not_ws t ha', pyRStrip_cons]
      by_cases h : pyRStrip t = []
      · rw [if_pos h, if_neg ha]
        exact pyLStrip_cons_not_ws [] ha'
      · rw [if_neg h]
        exact pyLStrip_cons_not_ws _ ha'

theorem pyLStrip_reverse (l : PyStr) : pyLStrip l.reverse = (pyRStrip l).reverse := by
  simp [pyLStrip, pyRStrip]

theorem pyRStrip_reverse (l : PyStr) : pyRStrip l.reverse = (pyLStrip l).reverse := by
  simp [pyLStrip, pyRStrip]

theorem pyStrip_reverse (l : PyStr) : pyStrip l.reverse = (pyStrip l).reverse := by
  calc pyStrip l.reverse = pyRStrip (pyLStrip l.reverse) := rfl
    _ = pyRStrip ((pyRStrip l).reverse) := by rw [pyLStrip_reverse]
    _ = (pyLStrip (pyRStrip l)).reverse := by rw [pyRStrip_reverse]
    _ = (pyRStrip (pyLStrip l)).reverse := by rw [pyLStrip_pyRStrip_comm]
    _ = (pyStrip l).reverse := rfl

theorem appendLast_cons (a : Char) (x : PyStr) (l : List PyStr) (h : l ≠ []) :
    appendLast a (x :: l) = x :: appendLast a l := by
  cases l with
  | nil => exact absurd rfl h
  | cons y r => rfl

theorem appendLast_append_single (a : Char) (xs : List PyStr) (x : PyStr) :
    appendLast a (xs ++ [x]) = xs ++ [x ++ [a]] := by
  induction xs with
  | nil => rfl
  | cons y ys ih =>
    rw [List.cons_append, appendLast_cons a y (ys ++ [x]) (by simp), ih,
      List.cons_append]

theorem pySplit_append_sep (c : Char) (l : PyStr) :
    pySplit c (l ++ [c]) = pySplit c l ++ [[]] := by
  induction l with
  | nil => simp [pySplit_cons, pySplit_nil]
  | cons b l ih =>
    rw [List.cons_append, pySplit_cons, pySplit_cons]
    by_cases hb : b = c
    · simp only [if_pos hb, ih]
      rfl
    · simp only [if_neg hb, ih]
      rcases hsp : pySplit c l with _ | ⟨hd, tl⟩
      · exact absurd hsp (pySplit_ne_nil c l)
      · simp [hsp]

theorem pySplit_append_char (c a : Char) (l : PyStr) (h : a ≠ c) :
    pySplit c (l ++ [a]) = appendLast a (pySplit c l) := by
  induction l with
  | nil => simp [pySplit_cons, if_neg h, pySplit_nil, appendLast]
  | cons b l ih =>
    rw [List.cons_append, pySplit_cons, pySplit_cons]
    by_cases hb : b = c
    · simp only [if_pos hb, ih]
      rw [appendLast_cons a [] (pySplit c l) (pySplit_ne_nil c l)]
    · simp only [if_neg hb, ih]
      rcases hsp : pySplit c l with _ | ⟨hd, tl⟩
      · exact absurd hsp (pySplit_ne_nil c l)
      · cases tl with
        | nil => rfl
        | cons z r => rfl

theorem pySplit_reverse (c : Char) (l : PyStr) :
    pySplit c l.reverse = ((pySplit c l).map List.reverse).reverse := by
  induction l with
  | nil => rfl
  | cons a t ih =>
    rw [List.reverse_cons]
    by_cases h : a = c
    · subst h
      rw [pySplit_append_sep, ih, pySplit_cons, if_pos rfl]
      simp
    · rw [pySplit_append_char c a _ h, ih, pySplit_cons, if_neg h]
      rcases hsp : pySplit c t with _ | ⟨hd, tl⟩
      · exact absurd hsp (pySplit_ne_nil c t)
      · simp [appendLast_append_single]

theorem pySplit_pyLStrip (s : PyStr) :
    ∀ y ∈ pySplit '\n' (pyLStrip s), ∃ x ∈ pySplit '\n' s, pyStrip y = pyStrip x := by
  induction s with
  | nil => intro y hy; exact ⟨y, hy, rfl⟩
  | cons a t ih =>
    by_cases ha : pyWs a = true
    · rw [pyLStrip_cons_ws t ha]
      intro y hy
      obtain ⟨x, hx, hxy⟩ := ih y hy
      rw [pySplit_cons]
      by_cases hc : a = '\n'
      · rw [if_pos hc]
        exact ⟨x, List.mem_cons_of_mem _ hx, hxy⟩
      · rw [if_neg hc]
        rcases hsp : pySplit '\n' t with _ | ⟨hd, tl⟩
        · exact absurd hsp (pySplit_ne_nil _ t)
        · rw [hsp] at hx
          simp only [List.modifyHead]
          rcases List.mem_cons.mp hx with h1 | h1
          · refine ⟨a :: hd, List.mem_cons_self _ _, ?_⟩
            rw [pyStrip_cons_ws hd ha, ← h1]
            exact hxy
          · exact ⟨x, List.mem_cons_of_mem _ h1, hxy⟩
    · have ha' : pyWs a = false := by simpa using ha
      rw [pyLStrip_cons_not_ws t ha']
      intro y hy
      exact ⟨y, hy, rfl⟩

theorem pySplit_pyRStrip (s : PyStr) :
    ∀ y ∈ pySplit '\n' (pyRStrip s), ∃ x ∈ pySplit '\n' s, pyStrip y = pyStrip x := by
  intro y hy
  have hrw : pyRStrip s = (pyLStrip s.reverse).reverse := by
    rw [pyLStrip_reverse]; simp [pyRStrip]
  rw [hrw, pySplit_reverse, List.mem_reverse] at hy
  obtain ⟨y', hy', hyy⟩ := List.mem_map.mp hy
  obtain ⟨x', hx', hxy⟩ := pySplit_pyLStrip s.reverse y' hy'
  rw [pySplit_reverse, List.mem_reverse] at hx'
  obtain ⟨x, hx, hxx⟩ := List.mem_map.mp hx'
  refine ⟨x, hx, ?_⟩
  rw [← hyy, pyStrip_reverse, hxy, ← hxx, pyStrip_reverse]
  simp

theorem pySplit_pyStrip (s : PyStr) :
    ∀ y ∈ pySplit '\n' (pyStrip s), ∃ x ∈ pySplit '\n' s, pyStrip y = pyStrip x := by
  intro y hy
  obtain ⟨x1, hx1, h1⟩ := pySplit_pyRStrip (pyLStrip s) y hy
  obtain ⟨x, hx, h2⟩ := pySplit_pyLStrip s x1 hx1
  exact ⟨x, hx, h1.trans h2⟩

theorem pySplit_intercalate {ls : List PyStr} (hnl : ∀ l ∈ ls, ('\n' : Char) ∉ l)
    (hne : ls ≠ []) : pySplit '\n' (List.intercalate (str "\n") ls) = ls := by
  have hd : str "\n" = ['\n'] := rfl
  rw [hd]
  exact List.splitOn_intercalate ls '\n' hnl hne

theorem bodyLines_ok (cb : List PyStr) (hcb : cb ≠ [])
    (hnl : ∀ x ∈ cb, ('\n' : Char) ∉ x) (hf : ∀ x ∈ cb, pyStrip x ≠ fence) :
    ∀ y ∈ pySplit '\n' (pyStrip (List.intercalate (str "\n") cb)),
      pyStrip y ≠ fence := by
  intro y hy
  obtain ⟨x, hx, hxy⟩ := pySplit_pyStrip _ y hy
  rw [pySplit_intercalate hnl hcb] at hx
  rw [hxy]
  exact hf x hx

/-! ## Lemmas about the extractor -/

theorem extractLoop_nil (o : Oracles) (v : Bool) (b : Bool) (cb : List PyStr)
    (cl : Option PyStr) (cmds : List Block) :
    extractLoop o v [] b cb cl cmds = cmds := rfl

theorem extractLoop_skip (o : Oracles) (v : Bool) (line : PyStr)
    (rest : List PyStr) (cb : List PyStr) (cl : Option PyStr) (cmds : List Block)
    (h : fence.isPrefixOf (pyStrip line) = false) :
    extractLoop o v (line :: rest) false cb cl cmds =
      extractLoop o v rest false cb cl cmds := by
  simp [extractLoop, h]

theorem extractLoop_skip_invalid (o : Oracles) (v : Bool) (line : PyStr)
    (rest : List PyStr) (cb : List PyStr) (cl : Option PyStr) (cmds : List Block)
    (h1 : fence.isPrefixOf (pyStrip line) = true)
    (h2 : valid_languages.contains (pyLower (pyStrip ((pyStrip line).drop 3))) = false) :
    extractLoop o v (line :: rest) false cb cl cmds =
      extractLoop o v rest false cb cl cmds := by
  have h2' : pyLower (pyStrip ((pyStrip line).drop 3)) ∉ valid_languages := by
    simpa using h2
  simp [extractLoop, h1, h2']

theorem extractLoop_open (o : Oracles) (v : Bool) (line : PyStr)
    (rest : List PyStr) (cb : List PyStr) (cl : Option PyStr) (cmds : List Block)
    (h1 : fence.isPrefixOf (pyStrip line) = true)
    (h2 : valid_languages.contains (pyLower (pyStrip ((pyStrip line).drop 3))) = true) :
    extractLoop o v (line :: rest) false cb cl cmds =
      extractLoop o v rest true []
        (some (pyLower (pyStrip ((pyStrip line).drop 3)))) cmds := by
  have h2' : pyLower (pyStrip ((pyStrip line).drop 3)) ∈ valid_languages := by
    simpa using h2
  simp [extractLoop, h1, h2']

theorem extractLoop_body (o : Oracles) (v : Bool) (line : PyStr)
    (rest : List PyStr) (cb : List PyStr) (cl : Option PyStr) (cmds : List Block)
    (h : pyStrip line ≠ fence) :
    extractLoop o v (line :: rest) true cb cl cmds =
      extractLoop o v rest true (cb ++ [line]) cl cmds := by
  have hb : (pyStrip line == fence) = false := beq_eq_false_iff_ne.mpr h
  simp [extractLoop, hb]

theorem extractLoop_close (o : Oracles) (v : Bool) (line : PyStr)
    (rest : List PyStr) (cb : List PyStr) (cl : Option PyStr) (cmds : List Block)
    (h : pyStrip line = fence) :
    extractLoop o v (line :: rest) true cb cl cmds =
      extractLoop o v rest false [] none (closeBlock o v cb cl cmds) := by
  simp [extractLoop, h]

theorem extractLoop_skip_all (o : Oracles) (v : Bool) :
    ∀ (pre : List PyStr) (rest : List PyStr) (cb : List PyStr) (cl : Option PyStr)
      (cmds : List Block),
      (∀ x ∈ pre, fence.isPrefixOf (pyStrip x) = false) →
      extractLoop o v (pre ++ rest) false cb cl cmds =
        extractLoop o v rest false cb cl cmds := by
  intro pre
  induction pre with
  | nil => intro rest cb cl cmds _; rfl
  | cons a t ih =>
    intro rest cb cl cmds h
    rw [List.cons_append,
      extractLoop_skip o v a (t ++ rest) cb cl cmds (h a (List.mem_cons_self a t)),
      ih rest cb cl cmds (fun x hx => h x (List.mem_cons_of_mem a hx))]

theorem extractLoop_body_all (o : Oracles) (v : Bool) :
    ∀ (body : List PyStr) (rest : List PyStr) (cb : List PyStr) (cl : Option PyStr)
      (cmds : List Block),
      (∀ x ∈ body, pyStrip x ≠ fence) →
      extractLoop o v (body ++ rest) true cb cl cmds =
        extractLoop o v rest true (cb ++ body) cl cmds := by
  intro body
  induction body with
  | nil => intro rest cb cl cmds _; simp
  | cons a t ih =>
    intro rest cb cl cmds h
    rw [List.cons_append,
      extractLoop_body o v a (t ++ rest) cb cl cmds (h a (List.mem_cons_self a t)),
      ih rest (cb ++ [a]) cl cmds (fun x hx => h x (List.mem_cons_of_mem a hx))]
    simp

theorem mem_closeBlock (o : Oracles) (v : Bool) (cb : List PyStr)
    (cl : Option PyStr) (acc : List Block) :
    ∀ e ∈ closeBlock o v cb cl acc,
      e ∈ acc ∨
        (e.command = pyStrip (List.intercalate (str "\n") cb) ∧
          (∃ L, cl = some L ∧ e.language = L) ∧ cb ≠ []) := by
  intro e he
  cases cb with
  | nil => left; simpa [closeBlock] using he
  | cons x xs =>
    cases cl with
    | none => left; simpa [closeBlock] using he
    | some L =>
      simp only [closeBlock] at he
      by_cases hc : pyStrip (List.intercalate (str "\n") (x :: xs)) = []
      · rw [if_pos hc] at he
        exact Or.inl he
      · rw [if_neg hc] at he
        by_cases hv : v = true
        · rw [if_pos hv] at he
          rcases List.mem_append.mp he with h1 | h1
          · exact Or.inl h1
          · right
            rw [List.mem_singleton] at h1
            subst h1
            exact ⟨rfl, ⟨L, rfl, rfl⟩, by simp⟩
        · rw [if_neg hv] at he
          rcases List.mem_append.mp he with h1 | h1
          · exact Or.inl h1
          · right
            rw [List.mem_singleton] at h1
            subst h1
            exact ⟨rfl, ⟨L, rfl, rfl⟩, by simp⟩

theorem extractLoop_bodyLines (o : Oracles) (v : Bool) :
    ∀ (lines : List PyStr) (b : Bool) (cb : List PyStr) (cl : Option PyStr)
      (acc : List Block),
      (∀ x ∈ lines, ('\n' : Char) ∉ x) →
      (∀ x ∈ cb, ('\n' : Char) ∉ x ∧ pyStrip x ≠ fence) →
      (∀ e ∈ acc, ∀ y ∈ pySplit '\n' e.command, pyStrip y ≠ fence) →
      ∀ e ∈ extractLoop o v lines b cb cl acc,
        ∀ y ∈ pySplit '\n' e.command, pyStrip y ≠ fence := by
  intro lines
  induction lines with
  | nil => intro b cb cl acc _ _ hacc e he; exact hacc e he
  | cons line rest ih =>
    intro b cb cl acc hlines hcb hacc e he
    have hline : ('\n' : Char) ∉ line := hlines line (List.mem_cons_self line rest)
    have hrest : ∀ x ∈ rest, ('\n' : Char) ∉ x :=
      fun x hx => hlines x (List.mem_cons_of_mem line hx)
    cases b with
    | false =>
      by_cases h1 : fence.isPrefixOf (pyStrip line) = true
      · by_cases h2 :
          valid_languages.contains (pyLower (pyStrip ((pyStrip line).drop 3))) = true
        · rw [extractLoop_open o v line rest cb cl acc h1 h2] at he
          exact ih true [] _ acc hrest (by simp) hacc e he
        · rw [extractLoop_skip_invalid o v line rest cb cl acc h1
            (Bool.eq_false_iff.mpr h2)] at he
          exact ih false cb cl acc hrest hcb hacc e he
      · rw [extractLoop_skip o v line rest cb cl acc (Bool.eq_false_iff.mpr h1)] at he
        exact ih false cb cl acc hrest hcb hacc e he
    | true =>
      by_cases h : pyStrip line = fence
      · rw [extractLoop_close o v line rest cb cl acc h] at he
        refine ih false [] none _ hrest (by simp) ?_ e he
        intro e' he' y hy
        rcases mem_closeBlock o v cb cl acc e' he' with hmem | ⟨hcmd, _, hne⟩
        · exact hacc e' hmem y hy
        · rw [hcmd] at hy
          exact bodyLines_ok cb hne (fun x hx => (hcb x hx).1)
            (fun x hx => (hcb x hx).2) y hy
      · rw [extractLoop_body o v line rest cb cl acc h] at he
        refine ih true (cb ++ [line]) cl acc hrest ?_ hacc e he
        intro x hx
        rcases List.mem_append.mp hx with h1 | h1
        · exact hcb x h1
        · rw [List.mem_singleton] at h1
          subst h1
          exact ⟨hline, h⟩

theorem extract_commands_bodyLines (o : Oracles) (text : PyStr) (v : Bool) :
    ∀ b ∈ extract_commands o text v,
      ∀ y ∈ pySplit '\n' b.command, pyStrip y ≠ fence := by
  intro b hb
  exact extractLoop_bodyLines o v (pySplit '\n' text) false [] none []
    (fun x hx => not_mem_of_mem_pySplit text x hx)
    (by simp) (by simp) b hb

/-! ## Lemmas about the span-instrumented extractor -/

theorem mem_of_getLast?_mem {α : Type} {l : List α} {a : α} (h : a ∈ l.getLast?) :
    a ∈ l := by
  rcases List.mem_getLast?_eq_getLast h with ⟨hne, heq⟩
  rw [heq]
  exact List.getLast_mem hne

theorem extractLoopSpans_skip (o : Oracles) (v : Bool) (i : Nat) (line : PyStr)
    (rest : List PyStr) (cb : List (Nat × PyStr)) (cl : Option PyStr)
    (cmds : List (Block × List (Nat × PyStr)))
    (h : fence.isPrefixOf (pyStrip line) = false) :
    extractLoopSpans o v i (line :: rest) false cb cl cmds =
      extractLoopSpans o v (i + 1) rest false cb cl cmds := by
  simp [extractLoopSpans, h]

theorem extractLoopSpans_skip_invalid (o : Oracles) (v : Bool) (i : Nat)
    (line : PyStr) (rest : List PyStr) (cb : List (Nat × PyStr))
    (cl : Option PyStr) (cmds : List (Block × List (Nat × PyStr)))
    (h1 : fence.isPrefixOf (pyStrip line) = true)
    (h2 : valid_languages.contains (pyLower (pyStrip ((pyStrip line).drop 3))) = false) :
    extractLoopSpans o v i (line :: rest) false cb cl cmds =
      extractLoopSpans o v (i + 1) rest false cb cl cmds := by
  have h2' : pyLower (pyStrip ((pyStrip line).drop 3)) ∉ valid_languages := by
    simpa using h2
  simp [extractLoopSpans, h1, h2']

theorem extractLoopSpans_open (o : Oracles) (v : Bool) (i : Nat) (line : PyStr)
    (rest : List PyStr) (cb : List (Nat × PyStr)) (cl : Option PyStr)
    (cmds : List (Block × List (Nat × PyStr)))
    (h1 : fence.isPrefixOf (pyStrip line) = true)
    (h2 : valid_languages.contains (pyLower (pyStrip ((pyStrip line).drop 3))) = true) :
    extractLoopSpans o v i (line :: rest) false cb cl cmds =
      extractLoopSpans o v (i + 1) rest true []
        (some (pyLower (pyStrip ((pyStrip line).drop 3)))) cmds := by
  have h2' : pyLower (pyStrip ((pyStrip line).drop 3)) ∈ valid_languages := by
    simpa using h2
  simp [extractLoopSpans, h1, h2']

theorem extractLoopSpans_body (o : Oracles) (v : Bool) (i : Nat) (line : PyStr)
    (rest : List PyStr) (cb : List (Nat × PyStr)) (cl : Option PyStr)
    (cmds : List (Block × List (Nat × PyStr)))
    (h : pyStrip line ≠ fence) :
    extractLoopSpans o v i (line :: rest) true cb cl cmds =
      extractLoopSpans o v (i + 1) rest true (cb ++ [(i, line)]) cl cmds := by
  have hb : (pyStrip line == fence) = false := beq_eq_false_iff_ne.mpr h
  simp [extractLoopSpans, hb]

theorem extractLoopSpans_close (o : Oracles) (v : Bool) (i : Nat) (line : PyStr)
    (rest : List PyStr) (cb : List (Nat × PyStr)) (cl : Option PyStr)
    (cmds : List (Block × List (Nat × PyStr)))
    (h : pyStrip line = fence) :
    extractLoopSpans o v i (line :: rest) true cb cl cmds =
      extractLoopSpans o v (i + 1) rest false [] none
        (closeBlockSpans o v cb cl cmds) := by
  simp [extractLoopSpans, h]

theorem closeBlockSpans_fst (o : Oracles) (v : Bool) (cb : List (Nat × PyStr))
    (cl : Option PyStr) (acc : List (Block × List (Nat × PyStr))) :
    (closeBlockSpans o v cb cl acc).map Prod.fst =
      closeBlock o v (cb.map Prod.snd) cl (acc.map Prod.fst) := by
  cases cb with
  | nil => cases cl <;> rfl
  | cons x xs =>
    cases cl with
    | none => rfl
    | some L =>
      simp only [closeBlockSpans, closeBlock, List.map_cons]
      by_cases hc :
        pyStrip (List.intercalate (str "\n") (x.2 :: xs.map Prod.snd)) = []
      · rw [if_pos hc, if_pos hc]
      · rw [if_neg hc, if_neg hc]
        by_cases hv : v = true
        · rw [if_pos hv, if_pos hv]; simp
        · rw [if_neg hv, if_neg hv]; simp

theorem extractLoopSpans_fst (o : Oracles) (v : Bool) :
    ∀ (lines : List PyStr) (i : Nat) (b : Bool) (cb : List (Nat × PyStr))
      (cl : Option PyStr) (acc : List (Block × List (Nat × PyStr))),
      (extractLoopSpans o v i lines b cb cl acc).map Prod.fst =
        extractLoop o v lines b (cb.map Prod.snd) cl (acc.map Prod.fst) := by
  intro lines
  induction lines with
  | nil => intro i b cb cl acc; rfl
  | cons line rest ih =>
    intro i b cb cl acc
    cases b with
    | false =>
      by_cases h1 : fence.isPrefixOf (pyStrip line) = true
      · by_cases h2 :
          valid_languages.contains (pyLower (pyStrip ((pyStrip line).drop 3))) = true
        · rw [extractLoopSpans_open o v i line rest cb cl acc h1 h2,
            extractLoop_open o v line rest (cb.map Prod.snd) cl (acc.map Prod.fst) h1 h2]
          exact ih (i + 1) true [] _ acc
        · rw [extractLoopSpans_skip_invalid o v i line rest cb cl acc h1
              (Bool.eq_false_iff.mpr h2),
            extractLoop_skip_invalid o v line rest (cb.map Prod.snd) cl
              (acc.map Prod.fst) h1 (Bool.eq_false_iff.mpr h2)]
          exact ih (i + 1) false cb cl acc
      · rw [extractLoopSpans_skip o v i line rest cb cl acc (Bool.eq_false_iff.mpr h1),
          extractLoop_skip o v line rest (cb.map Prod.snd) cl (acc.map Prod.fst)
            (Bool.eq_false_iff.mpr h1)]
        exact ih (i + 1) false cb cl acc
    | true =>
      by_cases h : pyStrip line = fence
      · rw [extractLoopSpans_close o v i line rest cb cl acc h,
          extractLoop_close o v line rest (cb.map Prod.snd) cl (acc.map Prod.fst) h,
          ih (i + 1) false [] none (closeBlockSpans o v cb cl acc),
          closeBlockSpans_fst o v cb cl acc]
        rfl
      · rw [extractLoopSpans_body o v i line rest cb cl acc h,
          extractLoop_body o v line rest (cb.map Prod.snd) cl (acc.map Prod.fst) h,
          ih (i + 1) true (cb ++ [(i, line)]) cl acc]
        simp

theorem extract_commands_spans_fst (o : Oracles) (text : PyStr) (v : Bool) :
    (extract_commands_spans o text v).map Prod.fst = extract_commands o text v := by
  exact extractLoopSpans_fst o v (pySplit '\n' text) 0 false [] none []

theorem flatSpans_append_single (acc : List (Block × List (Nat × PyStr)))
    (e : Block × List (Nat × PyStr)) :
    flatSpans (acc ++ [e]) = flatSpans acc ++ e.2.map Prod.fst := by
  simp [flatSpans]

theorem flatSpans_closeBlockSpans (o : Oracles) (v : Bool)
    (cb : List (Nat × PyStr)) (cl : Option PyStr)
    (acc : List (Block × List (Nat × PyStr))) :
    flatSpans (closeBlockSpans o v cb cl acc) = flatSpans acc ++ cb.map Prod.fst ∨
      flatSpans (closeBlockSpans o v cb cl acc) = flatSpans acc := by
  cases cb with
  | nil => right; cases cl <;> rfl
  | cons x xs =>
    cases cl with
    | none => right; rfl
    | some L =>
      simp only [closeBlockSpans, List.map_cons]
      by_cases hc :
        pyStrip (List.intercalate (str "\n") (x.2 :: xs.map Prod.snd)) = []
      · rw [if_pos hc]; right; rfl
      · rw [if_neg hc]
        by_cases hv : v = true
        · rw [if_pos hv]; left; rw [flatSpans_append_single]; rfl
        · rw [if_neg hv]; left; rw [flatSpans_append_single]; rfl

theorem mem_closeBlockSpans (o : Oracles) (v : Bool) (cb : List (Nat × PyStr))
    (cl : Option PyStr) (acc : List (Block × List (Nat × PyStr))) :
    ∀ e ∈ closeBlockSpans o v cb cl acc, e ∈ acc ∨ e.2 = cb := by
  intro e he
  cases cb with
  | nil => left; cases cl <;> simpa [closeBlockSpans] using he
  | cons x xs =>
    cases cl with
    | none => left; simpa [closeBlockSpans] using he
    | some L =>
      simp only [closeBlockSpans, List.map_cons] at he
      by_cases hc :
        pyStrip (List.intercalate (str "\n") (x.2 :: xs.map Prod.snd)) = []
      · rw [if_pos hc] at he; exact Or.inl he
      · rw [if_neg hc] at he
        by_cases hv : v = true
        · rw [if_pos hv] at he
          rcases List.mem_append.mp he with h1 | h1
          · exact Or.inl h1
          · right; rw [List.mem_singleton] at h1; subst h1; rfl
        · rw [if_neg hv] at he
          rcases List.mem_append.mp he with h1 | h1
          · exact Or.inl h1
          · right; rw [List.mem_singleton] at h1; subst h1; rfl

theorem extractLoopSpans_chain (o : Oracles) (v : Bool) :
    ∀ (lines : List PyStr) (i : Nat) (b : Bool) (cb : List (Nat × PyStr))
      (cl : Option PyStr) (acc : List (Block × List (Nat × PyStr))),
      (∀ j ∈ flatSpans acc ++ cb.map Prod.fst, j < i) →
      List.Chain' (· < ·) (flatSpans acc ++ cb.map Prod.fst) →
      List.Chain' (· < ·) (flatSpans (extractLoopSpans o v i lines b cb cl acc)) := by
  intro lines
  induction lines with
  | nil =>
    intro i b cb cl acc _ hchain
    exact (List.chain'_append.mp hchain).1
  | cons line rest ih =>
    intro i b cb cl acc hlt hchain
    have hmono : ∀ j ∈ flatSpans acc ++ cb.map Prod.fst, j < i + 1 :=
      fun j hj => Nat.lt_succ_of_lt (hlt j hj)
    have haccLt : ∀ j ∈ flatSpans acc, j < i + 1 :=
      fun j hj => hmono j (List.mem_append_left _ hj)
    have haccChain : List.Chain' (· < ·) (flatSpans acc) :=
      (List.chain'_append.mp hchain).1
    cases b with
    | false =>
      by_cases h1 : fence.isPrefixOf (pyStrip line) = true
      · by_cases h2 :
          valid_languages.contains (pyLower (pyStrip ((pyStrip line).drop 3))) = true
        · rw [extractLoopSpans_open o v i line rest cb cl acc h1 h2]
          refine ih (i + 1) true [] _ acc ?_ ?_
          · simpa using haccLt
          · simpa using haccChain
        · rw [extractLoopSpans_skip_invalid o v i line rest cb cl acc h1
            (Bool.eq_false_iff.mpr h2)]
          exact ih (i + 1) false cb cl acc hmono hchain
      · rw [extractLoopSpans_skip o v i line rest cb cl acc (Bool.eq_false_iff.mpr h1)]
        exact ih (i + 1) false cb cl acc hmono hchain
    | true =>
      by_cases h : pyStrip line = fence
      · rw [extractLoopSpans_close o v i line rest cb cl acc h]
        refine ih (i + 1) false [] none (closeBlockSpans o v cb cl acc) ?_ ?_
        · rcases flatSpans_closeBlockSpans o v cb cl acc with heq | heq
          · rw [heq]; simpa using hmono
          · rw [heq]; simpa using haccLt
        · rcases flatSpans_closeBlockSpans o v cb cl acc with heq | heq
          · rw [heq]; simpa using hchain
          · rw [heq]; simpa using haccChain
      · rw [extractLoopSpans_body o v i line rest cb cl acc h]
        refine ih (i + 1) true (cb ++ [(i, line)]) cl acc ?_ ?_
        · intro j hj
          simp only [List.map_append, List.map_cons, List.map_nil] at hj
          rw [← List.append_assoc] at hj
          rcases List.mem_append.mp hj with h1 | h1
          · exact hmono j h1
          · rw [List.mem_singleton] at h1; subst h1; exact Nat.lt_succ_self _
        · simp only [List.map_append, List.map_cons, List.map_nil]
          rw [← List.append_assoc, List.chain'_append]
          refine ⟨hchain, List.chain'_singleton i, ?_⟩
          intro x hx y hy
          simp only [List.head?_cons, Option.mem_def, Option.some.injEq] at hy
          subst hy
          exact hlt x (mem_of_getLast?_mem hx)

theorem extractLoopSpans_fidelity (o : Oracles) (v : Bool) (full : List PyStr) :
    ∀ (lines : List PyStr) (i : Nat) (b : Bool) (cb : List (Nat × PyStr))
      (cl : Option PyStr) (acc : List (Block × List (Nat × PyStr))),
      (∀ k, lines[k]? = full[i + k]?) →
      (∀ e ∈ acc, ∀ p ∈ e.2, full[p.1]? = some p.2) →
      (∀ p ∈ cb, full[p.1]? = some p.2) →
      ∀ e ∈ extractLoopSpans o v i lines b cb cl acc, ∀ p ∈ e.2,
        full[p.1]? = some p.2 := by
  intro lines
  induction lines with
  | nil => intro i b cb cl acc _ hacc _ e he; exact hacc e he
  | cons line rest ih =>
    intro i b cb cl acc hk hacc hcb
    have hk' : ∀ k, rest[k]? = full[(i + 1) + k]? := by
      intro k
      have h0 := hk (k + 1)
      have hidx : i + (k + 1) = (i + 1) + k := by omega
      rw [hidx] at h0
      simpa using h0
    have hline : full[i]? = some line := by
      have h0 := hk 0
      simpa using h0.symm
    cases b with
    | false =>
      by_cases h1 : fence.isPrefixOf (pyStrip line) = true
      · by_cases h2 :
          valid_languages.contains (pyLower (pyStrip ((pyStrip line).drop 3))) = true
        · rw [extractLoopSpans_open o v i line rest cb cl acc h1 h2]
          exact ih (i + 1) true [] _ acc hk' hacc (by simp)
        · rw [extractLoopSpans_skip_invalid o v i line rest cb cl acc h1
            (Bool.eq_false_iff.mpr h2)]
          exact ih (i + 1) false cb cl acc hk' hacc hcb
      · rw [extractLoopSpans_skip o v i line rest cb cl acc (Bool.eq_false_iff.mpr h1)]
        exact ih (i + 1) false cb cl acc hk' hacc hcb
    | true =>
      by_cases h : pyStrip line = fence
      · rw [extractLoopSpans_close o v i line rest cb cl acc h]
        refine ih (i + 1) false [] none (closeBlockSpans o v cb cl acc) hk' ?_ (by simp)
        intro e he p hp
        rcases mem_closeBlockSpans o v cb cl acc e he with hmem | hspan
        · exact hacc e hmem p hp
        · rw [hspan] at hp
          exact hcb p hp
      · rw [extractLoopSpans_body o v i line rest cb cl acc h]
        refine ih (i + 1) true (cb ++ [(i, line)]) cl acc hk' hacc ?_
        intro p hp
        rcases List.mem_append.mp hp with h1 | h1
        · exact hcb p h1
        · rw [List.mem_singleton] at h1
          subst h1
          exact hline

theorem extractLoop_language (o : Oracles) (v : Bool) :
    ∀ (lines : List PyStr) (b : Bool) (cb : List PyStr) (cl : Option PyStr)
      (acc : List Block),
      (∀ L, cl = some L → L ∈ valid_languages) →
      (∀ e ∈ acc, e.language ∈ valid_languages) →
      ∀ e ∈ extractLoop o v lines b cb cl acc, e.language ∈ valid_languages := by
  intro lines
  induction lines with
  | nil => intro b cb cl acc _ hacc e he; exact hacc e he
  | cons line rest ih =>
    intro b cb cl acc hcl hacc
    cases b with
    | false =>
      by_cases h1 : fence.isPrefixOf (pyStrip line) = true
      · by_cases h2 :
          valid_languages.contains (pyLower (pyStrip ((pyStrip line).drop 3))) = true
        · rw [extractLoop_open o v line rest cb cl acc h1 h2]
          refine ih true [] _ acc ?_ hacc
          intro L hL
          injection hL with hL
          rw [← hL]
          simpa using h2
        · rw [extractLoop_skip_invalid o v line rest cb cl acc h1
            (Bool.eq_false_iff.mpr h2)]
          exact ih false cb cl acc hcl hacc
      · rw [extractLoop_skip o v line rest cb cl acc (Bool.eq_false_iff.mpr h1)]
        exact ih false cb cl acc hcl hacc
    | true =>
      by_cases h : pyStrip line = fence
      · rw [extractLoop_close o v line rest cb cl acc h]
        refine ih false [] none _ (by simp) ?_
        intro e he
        rcases mem_closeBlock o v cb cl acc e he with hmem | ⟨_, ⟨L, hLeq, hLang⟩, _⟩
        · exact hacc e hmem
        · rw [hLang]
          exact hcl L hLeq
      · rw [extractLoop_body o v line rest cb cl acc h]
        exact ih true (cb ++ [line]) cl acc hcl hacc

theorem foldl_extend_flatMap {α β : Type} (f : α → List β) :
    ∀ (l : List α) (init : List β),
      l.foldl (fun acc x => acc ++ f x) init = init ++ l.flatMap f := by
  intro l
  induction l with
  | nil => intro init; simp
  | cons x t ih => intro init; simp [List.foldl_cons, ih]

/-! ## Claim theorems -/

/-- Claim C1: if an execution session is live when the interrupt callback
runs, the callback sends SIGTERM to the entire process group of the spawned
subprocess, waits for it, clears the session slot and does not re-raise;
on the interrupted execution path of `execute_command` the group of the
spawned child (its own process group, led by its pid) is killed, the slot
ends cleared, the outcome is the "Terminating command..." interrupt notice
and never the post-wait failure notice; and the failure notice is
suppressed whenever the wait ends with status `-SIGTERM`. -/
theorem c1_interrupt_live_session :
    (∀ (s : ExecutorState) (p : Proc), s.current_process = some p →
      handle_interrupt true s =
        { state := { s with current_process := none }
          trace := [Action.print "\nTerminating command...",
            Action.killpg p.pgid SIGTERM, Action.waitProc p.pid]
          raises := false }) ∧
    (∀ (command : PyCommand) (capture : Bool) (E : ExecEnv),
      E.interruptDuringWait = true → E.spawnOk = true → E.lookupOk = true →
      cmdText command ≠ "" →
      Action.killpg E.pid SIGTERM ∈ (execute_command command capture E).trace ∧
      Action.print "\nTerminating command..." ∈
        (execute_command command capture E).trace ∧
      (execute_command command capture E).proc = some { pid := E.pid, pgid := E.pid } ∧
      (execute_command command capture E).state.current_process = none ∧
      (execute_command command capture E).failureNoticePrinted = false ∧
      (execute_command command capture E).raised = false) ∧
    (∀ (command : PyCommand) (capture : Bool) (E : ExecEnv),
      E.interruptDuringWait = false → E.waitRC = -SIGTERM →
      (execute_command command capture E).failureNoticePrinted = false) := by
  refine ⟨?_, ?_, ?_⟩
  · intro s p h
    simp [handle_interrupt, h, getpgid]
  · intro command capture E h1 h2 h3 hcmd
    simp [execute_command, tryBody, handle_interrupt, hcmd, h1, h2, h3, getpgid]
  · intro command capture E h1 h2
    by_cases hcmd : cmdText command = ""
    · simp [execute_command, hcmd]
    · by_cases hok : E.spawnOk = true
      · simp [execute_command, tryBody, hcmd, h1, h2, hok]
      · simp [execute_command, tryBody, hcmd, h1, h2, hok]

/-- Witness for C1 at concrete inputs. -/
theorem c1_witness :
    (handle_interrupt true
        { current_process := some { pid := 7, pgid := 7 },
          recording_file := some "/tmp/r" } =
      { state := { current_process := none, recording_file := some "/tmp/r" }
        trace := [Action.print "\nTerminating command...",
          Action.killpg 7 SIGTERM, Action.waitProc 7]
        raises := false }) ∧
    (Action.killpg 4242 SIGTERM ∈
      (execute_command (PyCommand.ofStr "ls") true
        { sampleEnv with interruptDuringWait := true }).trace) ∧
    ((execute_command (PyCommand.ofStr "ls") true
        { sampleEnv with waitRC := -SIGTERM }).failureNoticePrinted = false) :=
  ⟨c1_interrupt_live_session.1 _ { pid := 7, pgid := 7 } rfl,
    (c1_interrupt_live_session.2.1 (PyCommand.ofStr "ls") true
      { sampleEnv with interruptDuringWait := true } rfl rfl rfl (by decide)).1,
    c1_interrupt_live_session.2.2 (PyCommand.ofStr "ls") true
      { sampleEnv with waitRC := -SIGTERM } rfl rfl⟩

/-- Claim C2: with no live execution session, the interrupt callback
restores the default SIGINT behavior and re-raises the interrupt, leaving
the executor state unchanged. -/
theorem c2_interrupt_no_session :
    ∀ (lookupOk : Bool) (s : ExecutorState), s.current_process = none →
      handle_interrupt lookupOk s =
        { state := s, trace := [Action.restoreDefaultSigint], raises := true } := by
  intro lookupOk s h
  simp [handle_interrupt, h]

/-- Witness for C2 at a concrete state. -/
theorem c2_witness :
    handle_interrupt true { current_process := none, recording_file := none } =
      { state := { current_process := none, recording_file := none }
        trace := [Action.restoreDefaultSigint]
        raises := true } :=
  c2_interrupt_no_session true _ rfl

/-- Claim C3: on every exit path of `execute_command` (no-op, normal
completion, nonzero exit, spawn exception, interruption), when the two
`os.unlink` calls succeed neither the scratch script nor the transcript
file remains; the scratch unlink is attempted whenever the files were
created; and the unlink outcomes never change the returned output or
whether an exception propagates. -/
theorem c3_temp_cleanup :
    ∀ (command : PyCommand) (capture : Bool) (E : ExecEnv),
      (E.unlinkTmpOk = true → E.unlinkRecOk = true →
        (execute_command command capture E).scratchExists = false ∧
        (execute_command command capture E).transcriptExists = false) ∧
      ((execute_command command capture E).scratchCreated = true →
        Action.unlink (E.tmpName ++
            (if cmdLanguage command = "python" then ".py" else ".sh")) ∈
          (execute_command command capture E).trace) ∧
      (∀ a b : Bool,
        (execute_command command capture
            { E with unlinkTmpOk := a, unlinkRecOk := b }).output =
          (execute_command command capture E).output ∧
        (execute_command command capture
            { E with unlinkTmpOk := a, unlinkRecOk := b }).raised =
          (execute_command command capture E).raised) := by
  intro command capture E
  by_cases hcmd : cmdText command = ""
  · refine ⟨?_, ?_, ?_⟩
    · intro h1 h2; simp [execute_command, hcmd]
    · intro h; simp [execute_command, hcmd] at h
    · intro a b; simp [execute_command, hcmd]
  · refine ⟨?_, ?_, ?_⟩
    · intro h1 h2; simp [execute_command, hcmd, h1, h2]
    · intro _; simp [execute_command, hcmd]
    · intro a b
      by_cases hok : E.spawnOk = true
      · by_cases hint : E.interruptDuringWait = true
        · simp [execute_command, tryBody, handle_interrupt, hcmd, hok, hint]
        · simp [execute_command, tryBody, hcmd, hok, hint]
      · simp [execute_command, tryBody, hcmd, hok]

/-- Witness for C3 at concrete inputs. -/
theorem c3_witness :
    ((execute_command (PyCommand.ofStr "ls") true sampleEnv).scratchExists = false ∧
      (execute_command (PyCommand.ofStr "ls") true sampleEnv).transcriptExists =
        false) ∧
    Action.unlink "/tmp/tmpabc.sh" ∈
      (execute_command (PyCommand.ofStr "ls") true sampleEnv).trace ∧
    (execute_command (PyCommand.ofStr "ls") true
        { sampleEnv with unlinkTmpOk := false, unlinkRecOk := false }).output =
      (execute_command (PyCommand.ofStr "ls") true sampleEnv).output :=
  ⟨(c3_temp_cleanup (PyCommand.ofStr "ls") true sampleEnv).1 rfl rfl,
    (c3_temp_cleanup (PyCommand.ofStr "ls") true sampleEnv).2.1 (by decide),
    ((c3_temp_cleanup (PyCommand.ofStr "ls") true sampleEnv).2.2 false false).1⟩

/-- Counterexample for C4: the whitespace-only command text " " is not
rejected: the coordinator creates a scratch file and spawns a subprocess
for it, because the source only tests `if not cmd` (emptiness), not
blankness. -/
theorem c4_counterexample :
    (str " ").all pyWs = true ∧
    (execute_command (PyCommand.ofTuple " " "bash") true sampleEnv).spawned = true ∧
    (execute_command (PyCommand.ofTuple " " "bash") true sampleEnv).scratchCreated =
      true := by
  decide

/-- Claim C4 (amended): only the empty command text is rejected with the
no-op notice, spawning no subprocess and creating no scratch file; any
other command text, including whitespace-only text, creates a scratch file
and is spawned. -/
theorem c4_empty_only_noop :
    ∀ (command : PyCommand) (capture : Bool) (E : ExecEnv),
      (cmdText command = "" →
        execute_command command capture E =
          { output := none
            raised := false
            trace := [Action.print "No command provided"]
            scratchCreated := false
            scratchExists := false
            transcriptCreated := false
            transcriptExists := false
            spawned := false
            spawnEnv := none
            proc := none
            failureNoticePrinted := false
            state := { current_process := none, recording_file := none } }) ∧
      (cmdText command ≠ "" →
        (execute_command command capture E).scratchCreated = true ∧
        (execute_command command capture E).spawned = E.spawnOk) := by
  intro command capture E
  constructor
  · intro hcmd; simp [execute_command, hcmd]
  · intro hcmd; simp [execute_command, hcmd]

/-- Witness for C4 (amended) at concrete inputs. -/
theorem c4_witness :
    execute_command (PyCommand.ofStr "") true sampleEnv =
      { output := none
        raised := false
        trace := [Action.print "No command provided"]
        scratchCreated := false
        scratchExists := false
        transcriptCreated := false
        transcriptExists := false
        spawned := false
        spawnEnv := none
        proc := none
        failureNoticePrinted := false
        state := { current_process := none, recording_file := none } } ∧
    (execute_command (PyCommand.ofStr "ls") true sampleEnv).scratchCreated = true :=
  ⟨(c4_empty_only_noop (PyCommand.ofStr "") true sampleEnv).1 rfl,
    ((c4_empty_only_noop (PyCommand.ofStr "ls") true sampleEnv).2 (by decide)).1⟩

/-- Claim C5: the environment handed to the spawned subprocess is exactly
the ambient environment with the ANTHROPIC_API_KEY entry removed: no
binding of the credential variable survives, and every other binding is
preserved. -/
theorem c5_env_sanitized :
    ∀ (command : PyCommand) (capture : Bool) (E : ExecEnv),
      ((execute_command command capture E).spawned = true →
        (execute_command command capture E).spawnEnv =
          some (eraseApiKey E.ambient)) ∧
      (∀ v, (apiKeyVar, v) ∉ eraseApiKey E.ambient) ∧
      (∀ k v, k ≠ apiKeyVar →
        ((k, v) ∈ eraseApiKey E.ambient ↔ (k, v) ∈ E.ambient)) := by
  intro command capture E
  refine ⟨?_, ?_, ?_⟩
  · intro hsp
    by_cases hcmd : cmdText command = ""
    · simp [execute_command, hcmd] at hsp
    · by_cases hok : E.spawnOk = true
      · simp [execute_command, hcmd, hok]
      · simp [execute_command, hcmd, hok] at hsp
  · intro v hv
    have := List.mem_filter.mp hv
    simp at this
  · intro k v hk
    constructor
    · intro hv
      exact (List.mem_filter.mp hv).1
    · intro hv
      refine List.mem_filter.mpr ⟨hv, ?_⟩
      simpa using hk

/-- Witness for C5 at concrete inputs. -/
theorem c5_witness :
    (execute_command (PyCommand.ofStr "ls") true sampleEnv).spawnEnv =
      some (eraseApiKey sampleEnv.ambient) ∧
    (apiKeyVar, "sk-secret") ∉ eraseApiKey sampleEnv.ambient ∧
    (("PATH", "/usr/bin") ∈ eraseApiKey sampleEnv.ambient ↔
      ("PATH", "/usr/bin") ∈ sampleEnv.ambient) :=
  ⟨(c5_env_sanitized (PyCommand.ofStr "ls") true sampleEnv).1 (by decide),
    (c5_env_sanitized (PyCommand.ofStr "ls") true sampleEnv).2.1 "sk-secret",
    (c5_env_sanitized (PyCommand.ofStr "ls") true sampleEnv).2.2 "PATH" "/usr/bin"
      (by decide)⟩

/-- Counterexample for C6: on the input consisting of the lines
"```bash", "echo hi", "```python", "```", the single extracted block's
body contains the line "```python", whose trimmed form is the triple
delimiter followed by the recognized language tag "python" — so bodies can
contain fence-delimiter-with-tag lines. -/
theorem c6_counterexample :
    (extract_commands noOracles (str "```bash\necho hi\n```python\n```") true).map
        Block.command = [str "echo hi\n```python"] ∧
    str "```python" ∈ pySplit '\n' (str "echo hi\n```python") ∧
    pyStrip (str "```python") = str "```python" ∧
    fence.isPrefixOf (str "```python") = true ∧
    pyLower (pyStrip ((str "```python").drop 3)) = str "python" ∧
    valid_languages.contains (str "python") = true := by
  decide

/-- Claim C6 (amended): the blocks produced by the extractor come from
non-overlapping (strictly increasing) line spans of the input — witnessed
by the span-instrumented extractor, which projects onto the plain one and
whose recorded lines are exactly the input lines at the recorded indices —
and no extracted block body contains a line whose trimmed form is the bare
triple delimiter (delimiter lines followed by a language tag can occur in
bodies). -/
theorem c6_spans_and_bodies :
    ∀ (o : Oracles) (text : PyStr) (validate : Bool),
      (extract_commands_spans o text validate).map Prod.fst =
          extract_commands o text validate ∧
      List.Chain' (· < ·) (flatSpans (extract_commands_spans o text validate)) ∧
      (∀ e ∈ extract_commands_spans o text validate, ∀ p ∈ e.2,
        (pySplit '\n' text)[p.1]? = some p.2) ∧
      (∀ b ∈ extract_commands o text validate,
        ∀ y ∈ pySplit '\n' b.command, pyStrip y ≠ fence) := by
  intro o text validate
  refine ⟨extract_commands_spans_fst o text validate, ?_, ?_,
    extract_commands_bodyLines o text validate⟩
  · exact extractLoopSpans_chain o validate (pySplit '\n' text) 0 false [] none []
      (by simp [flatSpans]) (by simp [flatSpans])
  · exact extractLoopSpans_fidelity o validate (pySplit '\n' text)
      (pySplit '\n' text) 0 false [] none [] (by simp) (by simp) (by simp)

/-- Witness for C6 (amended) at a concrete input. -/
theorem c6_witness :
    pyStrip (str "echo hi") ≠ fence ∧
    (pySplit '\n' (str "a\n```bash\nls\n```"))[2]? = some (str "ls") := by
  refine ⟨?_, ?_⟩
  · exact (c6_spans_and_bodies noOracles (str "Run:\n```bash\necho hi\n```")
      true).2.2.2 ⟨str "echo hi", str "bash", []⟩ (by decide) (str "echo hi")
      (by decide)
  · exact (c6_spans_and_bodies noOracles (str "a\n```bash\nls\n```") true).2.2.1
      (⟨str "ls", str "bash", []⟩, [(2, str "ls")]) (by decide) (2, str "ls")
      (by decide)

/-- Counterexample for C7: the input "```bash\n \n```" contains exactly one
well-formed fenced block with recognized tag "bash" and body " ", but the
extractor yields zero blocks (the trimmed body is empty), not one block
with body trim(" ") = "". -/
theorem c7_counterexample :
    (extract_commands noOracles (str "```bash\n \n```") true).map
        (fun b => (b.command, b.language)) ≠ [(pyStrip (str " "), str "bash")] ∧
    extract_commands noOracles (str "```bash\n \n```") true = [] ∧
    pyStrip (str " ") = [] ∧
    fence.isPrefixOf (pyStrip (str "```bash")) = true ∧
    pyLower (pyStrip ((pyStrip (str "```bash")).drop 3)) = str "bash" ∧
    pyStrip (str "```") = fence := by
  decide

/-- Claim C7 (amended): an input text containing exactly one well-formed
fenced block with recognized opening tag L and body lines `body` whose
trimmed joined body is non-empty yields exactly one block, with body
trim(B) and language L; an unterminated fence yields zero blocks; and the
concrete input "Run:\n```bash\necho hi\n```" yields exactly the block
("echo hi", "bash"). -/
theorem c7_single_block :
    (∀ (o : Oracles) (validate : Bool) (pre body post : List PyStr)
        (openL closeL L : PyStr),
      (∀ x ∈ pre, fence.isPrefixOf (pyStrip x) = false) →
      fence.isPrefixOf (pyStrip openL) = true →
      pyLower (pyStrip ((pyStrip openL).drop 3)) = L →
      valid_languages.contains L = true →
      (∀ x ∈ body, pyStrip x ≠ fence) →
      pyStrip closeL = fence →
      (∀ x ∈ post, fence.isPrefixOf (pyStrip x) = false) →
      (∀ x ∈ pre ++ (openL :: (body ++ (closeL :: post))), ('\n' : Char) ∉ x) →
      pyStrip (List.intercalate (str "\n") body) ≠ [] →
      (extract_commands o
          (List.intercalate (str "\n")
            (pre ++ (openL :: (body ++ (closeL :: post)))))
          validate).map (fun b => (b.command, b.language)) =
        [(pyStrip (List.intercalate (str "\n") body), L)]) ∧
    (∀ (o : Oracles) (validate : Bool) (pre body : List PyStr) (openL : PyStr),
      (∀ x ∈ pre, fence.isPrefixOf (pyStrip x) = false) →
      fence.isPrefixOf (pyStrip openL) = true →
      valid_languages.contains (pyLower (pyStrip ((pyStrip openL).drop 3))) = true →
      (∀ x ∈ body, pyStrip x ≠ fence) →
      (∀ x ∈ pre ++ (openL :: body), ('\n' : Char) ∉ x) →
      extract_commands o (List.intercalate (str "\n") (pre ++ (openL :: body)))
        validate = []) ∧
    extract_commands noOracles (str "Run:\n```bash\necho hi\n```") true =
      [⟨str "echo hi", str "bash", []⟩] := by
  refine ⟨?_, ?_, by decide⟩
  · intro o v pre body post openL closeL L hpre hopen hL hLval hbody hclose hpost
      hnl hne
    have hlines :
        pySplit '\n'
            (List.intercalate (str "\n")
              (pre ++ (openL :: (body ++ (closeL :: post))))) =
          pre ++ (openL :: (body ++ (closeL :: post))) :=
      pySplit_intercalate hnl (by simp)
    unfold extract_commands
    rw [hlines,
      extractLoop_skip_all o v pre (openL :: (body ++ (closeL :: post))) [] none []
        hpre,
      extractLoop_open o v openL (body ++ (closeL :: post)) [] none [] hopen
        (by rw [hL]; exact hLval),
      hL,
      extractLoop_body_all o v body (closeL :: post) [] (some L) [] hbody,
      extractLoop_close o v closeL post ([] ++ body) (some L) [] hclose]
    cases body with
    | nil => exact absurd rfl hne
    | cons b0 bs =>
      rw [List.nil_append]
      simp only [closeBlock]
      rw [if_neg hne]
      by_cases hv : v = true
      · rw [if_pos hv]
        have hskip := extractLoop_skip_all o v post [] [] none
          ([] ++ [⟨pyStrip (List.intercalate (str "\n") (b0 :: bs)), L,
            (test_command o (pyStrip (List.intercalate (str "\n") (b0 :: bs))) L).2⟩])
          hpost
        rw [List.append_nil] at hskip
        rw [hskip, extractLoop_nil]
        simp
      · rw [if_neg hv]
        have hskip := extractLoop_skip_all o v post [] [] none
          ([] ++ [⟨pyStrip (List.intercalate (str "\n") (b0 :: bs)), L, []⟩]) hpost
        rw [List.append_nil] at hskip
        rw [hskip, extractLoop_nil]
        simp
  · intro o v pre body openL hpre hopen hLval hbody hnl
    have hlines :
        pySplit '\n' (List.intercalate (str "\n") (pre ++ (openL :: body))) =
          pre ++ (openL :: body) :=
      pySplit_intercalate hnl (by simp)
    unfold extract_commands
    rw [hlines,
      extractLoop_skip_all o v pre (openL :: body) [] none [] hpre,
      extractLoop_open o v openL body [] none [] hopen hLval]
    have hb := extractLoop_body_all o v body [] []
      (some (pyLower (pyStrip ((pyStrip openL).drop 3)))) [] hbody
    rw [List.append_nil] at hb
    rw [hb, extractLoop_nil]

/-- Witness for C7 (amended) at concrete inputs. -/
theorem c7_witness :
    (extract_commands noOracles
        (List.intercalate (str "\n")
          ([str "Run:"] ++ (str "```bash" :: ([str "echo hi"] ++
            (str "```" :: []))))) true).map (fun b => (b.command, b.language)) =
      [(pyStrip (List.intercalate (str "\n") [str "echo hi"]), str "bash")] ∧
    extract_commands noOracles
      (List.intercalate (str "\n") ([] ++ (str "```bash" :: [str "ls"]))) true =
        [] :=
  ⟨c7_single_block.1 noOracles true [str "Run:"] [str "echo hi"] []
      (str "```bash") (str "```") (str "bash") (by decide) (by decide) (by decide)
      (by decide) (by decide) (by decide) (by decide) (by decide) (by decide),
    c7_single_block.2.1 noOracles true [] [str "ls"] (str "```bash") (by decide)
      (by decide) (by decide) (by decide) (by decide)⟩

/-- Counterexample for C8: the extractor has no strict/permissive
configuration: under both values of its only configuration flag
(`validate`), an untagged fence yields no block at all, rather than a
shell-dialect block under some configuration. -/
theorem c8_counterexample :
    extract_commands noOracles (str "```\nls\n```") true = [] ∧
    extract_commands noOracles (str "```\nls\n```") false = [] := by
  decide

/-- Claim C8 (amended): only the strict variant is implemented: under every
oracle assignment and every value of the `validate` flag, each extracted
block carries a recognized language tag (bash or python), and an untagged
fence is ignored; no permissive configuration exists. -/
theorem c8_strict_only :
    (∀ (o : Oracles) (text : PyStr) (validate : Bool),
      ∀ b ∈ extract_commands o text validate,
        b.language = str "bash" ∨ b.language = str "python") ∧
    (∀ (o : Oracles) (validate : Bool),
      extract_commands o (str "```\nls\n```") validate = []) := by
  constructor
  · intro o text v b hb
    have hmem := extractLoop_language o v (pySplit '\n' text) false [] none []
      (by simp) (by simp) b hb
    simpa [valid_languages] using hmem
  · intro o v
    rfl

/-- Witness for C8 (amended) at concrete inputs. -/
theorem c8_witness :
    ((⟨str "echo hi", str "bash", []⟩ : Block).language = str "bash" ∨
      (⟨str "echo hi", str "bash", []⟩ : Block).language = str "python") ∧
    extract_commands noOracles (str "```\nls\n```") true = [] :=
  ⟨c8_strict_only.1 noOracles (str "Run:\n```bash\necho hi\n```") true
      ⟨str "echo hi", str "bash", []⟩ (by decide),
    c8_strict_only.2 noOracles true⟩

/-- Claim C9: a single-line shell body free of the metacharacters
`&|;<>()` is accepted by the validator as `(true, "")` independently of the
external checkers (the fast path), and any language other than bash or
python fails unconditionally with the fixed unsupported-language reason. -/
theorem c9_validator :
    (∀ (o : Oracles) (command : PyStr),
      command.contains '\n' = false →
      (∀ c ∈ metachars, command.contains c = false) →
      test_command o command (str "bash") = (true, [])) ∧
    (∀ (o : Oracles) (command language : PyStr),
      language ≠ str "bash" → language ≠ str "python" →
      test_command o command language =
        (false, str "Unsupported language: " ++ language)) := by
  constructor
  · intro o command h1 h2
    have hfast :
        (!command.contains '\n' && metachars.all fun c => !command.contains c) =
          true := by
      rw [Bool.and_eq_true]
      constructor
      · rw [h1]; rfl
      · rw [List.all_eq_true]
        intro c hc
        rw [h2 c hc]; rfl
    unfold test_command
    rw [if_pos rfl, hfast]
    simp
  · intro o command language h1 h2
    simp [test_command, h1, h2]

/-- Witness for C9 at concrete inputs. -/
theorem c9_witness :
    test_command noOracles (str "echo hi") (str "bash") = (true, []) ∧
    test_command noOracles (str "puts 1") (str "ruby") =
      (false, str "Unsupported language: " ++ str "ruby") :=
  ⟨c9_validator.1 noOracles (str "echo hi") (by decide) (by decide),
    c9_validator.2 noOracles (str "puts 1") (str "ruby") (by decide) (by decide)⟩

/-- Claim C10: the message sequence for the API is built from exactly the
last 10 interactions of the session history (all of them when fewer), in
order, each contributing a user message then an assistant message; older
interactions are omitted. -/
theorem c10_last_ten :
    ∀ session_history : List Interaction,
      ∃ dropped kept : List Interaction,
        session_history = dropped ++ kept ∧
        kept.length = min session_history.length 10 ∧
        get_messages_for_api session_history =
          kept.flatMap (fun it =>
            [{ role := "user", content := it.user },
              { role := "assistant", content := it.assistant }]) := by
  intro h
  refine ⟨h.take (h.length - 10), h.drop (h.length - 10),
    (List.take_append_drop _ h).symm, ?_, ?_⟩
  · rw [List.length_drop]; omega
  · unfold get_messages_for_api
    simpa using foldl_extend_flatMap
      (fun it => [({ role := "user", content := it.user } : Msg),
        { role := "assistant", content := it.assistant }])
      (h.drop (h.length - 10)) []

end ClaudeCli
